import Mathlib

/-!
# gh-serve: the artifact resolution pipeline of `main.go`

A shallow embedding of `getArtifact`, `download`, `getIndexFile` and `findFile`
and the properties of them that the specification states.

External collaborators (the `gh` command, `json.Unmarshal`, the `survey` prompt,
the filesystem) are represented by the outcomes the code distinguishes.
-/

namespace GhServe

/-! ## Data model (`type Run`, `type Artifact`) -/

/-- The Go struct `Run`. -/
structure Run where
  Conclusion : String
  Name : String
  Status : String
  Url : String
  RunId : Int
  HeadSha : String
  Event : String
  deriving DecidableEq, Repr, Inhabited

/-- The Go struct `Artifact`; `Size` is a `uint64` that is only stored and shown. -/
structure Artifact where
  Name : String
  Size : Nat
  Expired : Bool
  RunId : Int
  Run : Run
  deriving DecidableEq, Repr, Inhabited

/-! ## The run filter built by `getArtifact` (main.go 110-119)

`filter` is a jq program; its meaning on the JSON array of runs is given below.
The sha is spliced between double quotes, so the program is the one written
here for a sha that is a commit id (no quote or backslash in it). -/

/-- The jq test `.event=="pull_request"`. -/
def isPullRequestEvent (r : Run) : Bool := r.Event == "pull_request"

/-- The jq program held by `filter`:
`map(select(.headSha==sha))`, followed for a PR by
`if any(.event=="pull_request") then map(select(.event=="pull_request")) else . end`
and otherwise by `map(select(.event!="pull_request"))`. -/
def runFilter (sha : String) (isPr : Bool) (runs : List Run) : List Run :=
  let bySha := runs.filter (fun r => r.HeadSha == sha)
  if isPr then
    if bySha.any isPullRequestEvent then bySha.filter isPullRequestEvent else bySha
  else
    bySha.filter (fun r => r.Event != "pull_request")

/-! ## Collaborator outcomes seen by `getArtifact` -/

/-- Errors `getArtifact` can return, by the statement that produces them. -/
inductive Err where
  /-- The error of a failed `gh.Exec` call (main.go 128-130, 143-145). -/
  | exec (msg : String)
  /-- The error of a failed `json.Unmarshal` (main.go 133-135, 160-162). -/
  | json (msg : String)
  /-- The error built by `fmt.Errorf` at main.go 170. -/
  | notFound (branch sha : String)
  /-- The error returned by `survey.AskOne` (main.go 191-193). -/
  | prompt (msg : String)
  /-- The runtime failure of `allArtifacts[answerIndex]` for an index out of range. -/
  | indexOutOfRange (index : Nat)
  deriving DecidableEq, Repr

/-- The text of an error; for `notFound` it is the format string of main.go 170
with both `%s` filled in. -/
def Err.message : Err → String
  | .exec msg => msg
  | .json msg => msg
  | .notFound branch sha => "No artifacts found for branch " ++ branch ++ " and sha " ++ sha
  | .prompt msg => msg
  | .indexOutOfRange _ => "index out of range"

/-- Outcome of `gh run list -b branch --json ... -q filter` and of decoding its
output: the call fails, the output does not decode, or it is the runs of the
branch (to which the jq filter is applied). -/
inductive RunListing where
  | failed (msg : String)
  | undecodable (msg : String)
  | runs (all : List Run)
  deriving DecidableEq, Repr

/-- One element of `.artifacts` in the provider's answer to
`repos/<nameWithOwner>/actions/runs/<runId>/artifacts`, with the fields the jq
query reads. -/
structure ApiArtifact where
  name : String
  size_in_bytes : Nat
  expired : Bool
  workflow_run_id : Int
  deriving DecidableEq, Repr

/-- Outcome of one artifact listing (main.go 156-162), by the cases the code
tells apart: `gh.Exec` returns an error; it succeeds with output that is blank
after `strings.TrimSpace`; it succeeds with non-blank output that
`json.Unmarshal` rejects; it succeeds with the `.artifacts` array given. -/
inductive Listing where
  | failed (msg : String)
  | blank
  | undecodable (msg : String)
  | artifacts (arts : List ApiArtifact)
  deriving DecidableEq, Repr

/-- The answers of the `gh` collaborator during one invocation. -/
structure Provider where
  /-- By branch: `gh run list -b branch`. -/
  runList : String → RunListing
  /-- Result of `getNameWithOwner`. -/
  nameWithOwner : Except String String
  /-- By nameWithOwner and run id: the artifact listing of that run. -/
  artifacts : String → Int → Listing

/-- The zero value of `Run`, which `json.Unmarshal` leaves in `Artifact.Run`. -/
def Run.zero : Run :=
  { Conclusion := "", Name := "", Status := "", Url := "", RunId := 0, HeadSha := "", Event := "" }

/-- The jq query of main.go 151-153 followed by `json.Unmarshal` into `[]Artifact`:
`.artifacts|map({name, size_in_bytes, expired, run_id: .workflow_run.id})|map(select(.expired==false))`. -/
def decodeArtifacts (arts : List ApiArtifact) : List Artifact :=
  ((arts.map fun a =>
      ({ Name := a.name, Size := a.size_in_bytes, Expired := a.expired,
         RunId := a.workflow_run_id, Run := Run.zero } : Artifact)).filter
    fun a => a.Expired == false)

/-- The loop body's inner loop, main.go 163-165: `artifactList[j].Run = workflowRuns[i]`. -/
def attachRun (r : Run) (artifactList : List Artifact) : List Artifact :=
  artifactList.map fun a => { a with Run := r }

/-- The loop of main.go 147-168 over the runs still to visit, with `allArtifacts`
as accumulator. A listing is used only when `err == nil` and the output is not
blank; an output that does not decode returns the decode error at once. -/
def aggregateLoop (listing : Int → Listing) : List Run → List Artifact → Except Err (List Artifact)
  | [], allArtifacts => .ok allArtifacts
  | r :: rest, allArtifacts =>
    match listing r.RunId with
    | .artifacts arts =>
      aggregateLoop listing rest (allArtifacts ++ attachRun r (decodeArtifacts arts))
    | .undecodable msg => .error (.json msg)
    | .failed _ => aggregateLoop listing rest allArtifacts
    | .blank => aggregateLoop listing rest allArtifacts

/-- The part of `getArtifact` up to main.go 168: the run query with its filter,
`getNameWithOwner`, and the aggregation loop started with an empty list. The
value is `allArtifacts` as line 169 sees it, or the error returned before. -/
def candidates (P : Provider) (branch sha : String) (isPr : Bool) : Except Err (List Artifact) :=
  match P.runList branch with
  | .failed msg => .error (.exec msg)
  | .undecodable msg => .error (.json msg)
  | .runs all =>
    let workflowRuns := runFilter sha isPr all
    match P.nameWithOwner with
    | .error msg => .error (.exec msg)
    | .ok nameWithOwner => aggregateLoop (P.artifacts nameWithOwner) workflowRuns []

/-- What a call of `getArtifact` yields: its return value and the option lists
that `survey.AskOne` was shown, in order (empty when no prompt was invoked). -/
structure Outcome where
  result : Except Err Artifact
  prompts : List (List String)

/-- The selection of main.go 169-196. `ask` is `survey.AskOne` on the option
names: an error, or the index chosen (the `Description` callback only
decorates the options shown). -/
def selectArtifact (ask : List String → Except String Nat) (branch sha : String)
    (allArtifacts : List Artifact) : Outcome :=
  if allArtifacts.length = 0 then
    { result := .error (.notFound branch sha), prompts := [] }
  else if allArtifacts.length = 1 then
    match allArtifacts[0]? with
    | some artifact => { result := .ok artifact, prompts := [] }
    | none => { result := .error (.indexOutOfRange 0), prompts := [] }
  else
    let names := allArtifacts.map fun m => m.Name
    match ask names with
    | .error msg => { result := .error (.prompt msg), prompts := [names] }
    | .ok answerIndex =>
      match allArtifacts[answerIndex]? with
      | some artifact => { result := .ok artifact, prompts := [names] }
      | none => { result := .error (.indexOutOfRange answerIndex), prompts := [names] }

/-- The function `getArtifact` (main.go 108-197). -/
def getArtifact (P : Provider) (ask : List String → Except String Nat)
    (branch sha : String) (isPr : Bool) : Outcome :=
  match candidates P branch sha isPr with
  | .error e => { result := .error e, prompts := [] }
  | .ok allArtifacts => selectArtifact ask branch sha allArtifacts

/-- The candidate list as the specification words it: the concatenation, in run
order, of each run's non-expired artifacts tagged with that run, where a
listing that fails in any way (call error, blank or undecodable output)
contributes nothing. -/
def specCandidates (listing : Int → Listing) (runs : List Run) : List Artifact :=
  runs.flatMap fun r =>
    match listing r.RunId with
    | .artifacts arts => attachRun r (decodeArtifacts arts)
    | _ => []

/-! ## `download` (main.go 267-287) -/

/-- What `os.Stat` reports for a path, by the test `os.IsNotExist(err)`. -/
inductive StatResult where
  | found
  | notExist
  | otherError
  deriving DecidableEq, Repr

/-- The effects `download` can perform. -/
inductive Op where
  /-- The call `os.RemoveAll(dir)`. -/
  | removeAll (dir : String)
  /-- The call `gh run download <runId> -n <name> -D <dir>`. -/
  | runDownload (runId : String) (name : String) (dir : String)
  deriving DecidableEq, Repr

/-- Filesystem state as `os.Stat` sees it, and the effects performed so far. -/
structure World where
  stat : String → StatResult
  trace : List Op

/-- How one provider download ends: the error of `gh.Exec` and whether the
target directory exists afterwards. -/
structure DownloadResult where
  err : Option String
  createsDir : Bool
  deriving DecidableEq, Repr

/-- The flag and the collaborators of `download`. -/
structure Env where
  /-- The package variable `noCache`. -/
  noCache : Bool
  /-- The error `os.RemoveAll` returns for a path (`none` for success). -/
  removeAll : String → Option String
  /-- The provider download, by run id, artifact name and directory. -/
  runDownload : String → String → String → DownloadResult

/-- Replace what `os.Stat` reports for one path. -/
def setStat (stat : String → StatResult) (dir : String) (r : StatResult) : String → StatResult :=
  fun p => if p = dir then r else stat p

/-- The statement `strconv.Itoa`. -/
def itoa (i : Int) : String := toString i

/-- Lines 280-286 of main.go: the provider download and its error. -/
def providerDownload (env : Env) (artifact : Artifact) (downloadDir : String) (w : World) :
    Option String × World :=
  let r := env.runDownload (itoa artifact.RunId) artifact.Name downloadDir
  (r.err,
   { stat := if r.createsDir then setStat w.stat downloadDir .found else w.stat,
     trace := w.trace ++ [.runDownload (itoa artifact.RunId) artifact.Name downloadDir] })

/-- The function `download`: the returned error (`none` for `nil`) and the world after. -/
def download (env : Env) (artifact : Artifact) (downloadDir : String) (w : World) :
    Option String × World :=
  match w.stat downloadDir with
  | .notExist => providerDownload env artifact downloadDir w
  | _ =>
    if env.noCache then
      let w1 : World := { w with trace := w.trace ++ [.removeAll downloadDir] }
      match env.removeAll downloadDir with
      | some err => (some err, w1)
      | none => providerDownload env artifact downloadDir
          { w1 with stat := setStat w1.stat downloadDir .notExist }
    else
      (none, w)

/-- Number of provider downloads in a trace. -/
def countDownloads (ops : List Op) : Nat :=
  ops.countP fun op => match op with
    | .runDownload _ _ _ => true
    | _ => false

/-- Number of recursive deletes in a trace. -/
def countRemoves (ops : List Op) : Nat :=
  ops.countP fun op => match op with
    | .removeAll _ => true
    | _ => false

/-! ## `findFile` and `getIndexFile` (main.go 289-325) -/

/-- A directory tree as `filepath.Walk` meets it. The children of a directory are
in the order `Walk` visits them (sorted by name). `broken` is an entry for
which `Walk` calls the function with a non-nil error (its `Lstat`, or the
reading of the directory, failed). -/
inductive Tree where
  | file (name : String)
  | dir (name : String) (children : List Tree)
  | broken (name : String) (err : String)
  deriving Repr

/-- The base name of an entry, `info.Name()`. -/
def Tree.name : Tree → String
  | .file name => name
  | .dir name _ => name
  | .broken name _ => name

/-- The statement `strings.HasSuffix(s, suffix)`. -/
def hasSuffix (s suffix : String) : Bool := suffix.data.isSuffixOf s.data

/-- A `filepath.WalkFunc` with its captured variables as state `σ`: from the
path (the components below the root), the entry's name and the error passed
in, to the error returned or the new state. -/
abbrev WalkFunc (σ : Type) := List String → String → Option String → σ → Except String σ

mutual
/-- The recursion of `filepath.Walk` on one entry: the function is called on the
entry, then on the entries below it, and the first error returned stops the
walk (the function here never returns `SkipDir`). -/
def walk {σ : Type} (fn : WalkFunc σ) (path : List String) : Tree → σ → Except String σ
  | .file name, s => fn path name none s
  | .broken name err, s => fn path name (some err) s
  | .dir name children, s =>
    match fn path name none s with
    | .error e => .error e
    | .ok s1 => walkChildren fn path children s1
/-- The loop of `filepath.Walk` over the names of a directory. -/
def walkChildren {σ : Type} (fn : WalkFunc σ) (path : List String) :
    List Tree → σ → Except String σ
  | [], s => .ok s
  | c :: cs, s =>
    match walk fn (path ++ [c.name]) c s with
    | .error e => .error e
    | .ok s1 => walkChildren fn path cs s1
end

/-- The function literal of main.go 310-319, with `filePath` as state: `none` is
the empty string, `some p` the path `dirPath` joined with the components `p`. -/
def findFileFn (fileName : String) : WalkFunc (Option (List String)) :=
  fun path name err filePath =>
    match err with
    | some e => .error e
    | none => if hasSuffix name fileName then .ok (some path) else .ok filePath

/-- The function `findFile` on the tree rooted at `dirPath`. -/
def findFile (tree : Tree) (fileName : String) : Except String (Option (List String)) :=
  walk (findFileFn fileName) [] tree none

/-- The call `filepath.Rel(dir, found)` for a path found below `dir`. -/
def relPath (p : List String) : String :=
  if p = [] then "." else "/".intercalate p

/-- The slice `names` of `getIndexFile`. -/
def indexNames : List String := ["index.html", "index.htm", ".html", ".htm"]

/-- The loop of `getIndexFile` over the names still to try. -/
def getIndexFileLoop (tree : Tree) : List String → Except String String
  | [] => .ok ""
  | name :: rest =>
    match findFile tree name with
    | .error e => .error e
    | .ok (some found) => .ok (relPath found)
    | .ok none => getIndexFileLoop tree rest

/-- The function `getIndexFile`. -/
def getIndexFile (tree : Tree) : Except String String :=
  getIndexFileLoop tree indexNames

mutual
/-- The entries the walk visits, in order, as (path below the root, name). -/
def entries (path : List String) : Tree → List (List String × String)
  | .file name => [(path, name)]
  | .broken name _ => [(path, name)]
  | .dir name children => (path, name) :: entriesChildren path children
/-- The entries below a directory. -/
def entriesChildren (path : List String) : List Tree → List (List String × String)
  | [] => []
  | c :: cs => entries (path ++ [c.name]) c ++ entriesChildren path cs
end

mutual
/-- The error of the first entry, in walk order, for which `Walk` passes an error. -/
def firstBroken : Tree → Option String
  | .file _ => none
  | .broken _ err => some err
  | .dir _ children => firstBrokenChildren children
/-- The error of the first such entry below a directory. -/
def firstBrokenChildren : List Tree → Option String
  | [] => none
  | c :: cs =>
    match firstBroken c with
    | some e => some e
    | none => firstBrokenChildren cs
end

/-- The path of the last entry of a sequence whose name ends in `fileName`, or
`init` when there is none. -/
def lastMatch (fileName : String) (es : List (List String × String))
    (init : Option (List String)) : Option (List String) :=
  es.foldl (fun acc e => if hasSuffix e.2 fileName then some e.1 else acc) init

mutual
/-- The regular files of a tree, in walk order, as (path below the root, name). -/
def filesOf (path : List String) : Tree → List (List String × String)
  | .file name => [(path, name)]
  | .broken _ _ => []
  | .dir _ children => filesOfChildren path children
/-- The regular files below a directory. -/
def filesOfChildren (path : List String) : List Tree → List (List String × String)
  | [] => []
  | c :: cs => filesOf (path ++ [c.name]) c ++ filesOfChildren path cs
end

/-! ## Spec-side notions and sample data -/

/-- The message of the first listing, in run order, whose output does not decode. -/
def firstUndecodable (listing : Int → Listing) : List Run → Option String
  | [] => none
  | r :: rest =>
    match listing r.RunId with
    | .undecodable msg => some msg
    | _ => firstUndecodable listing rest

/-- A sample run with the given id and event on commit `abc123`. -/
def sampleRun (id : Int) (event : String) : Run :=
  { Conclusion := "success", Name := "docs", Status := "completed",
    Url := "https://example.test/run", RunId := id, HeadSha := "abc123", Event := event }

/-- A sample element of a provider answer: a live artifact `site` of run `id`. -/
def sampleApiArtifact (id : Int) : ApiArtifact :=
  { name := "site", size_in_bytes := 2048, expired := false, workflow_run_id := id }

/-- A provider with runs 1 and 2 on every branch, where run 1 has one live
artifact and the listing of run 2 is what `second` says. -/
def sampleProvider (second : Listing) : Provider :=
  { runList := fun _ => .runs [sampleRun 1 "push", sampleRun 2 "push"],
    nameWithOwner := .ok "octo/site",
    artifacts := fun _ id =>
      if id = 1 then .artifacts [sampleApiArtifact 1] else second }

/-- A provider like `sampleProvider`, with the listings of runs 1 and 2 exchanged. -/
def sampleProviderSwapped (first : Listing) : Provider :=
  { runList := fun _ => .runs [sampleRun 1 "push", sampleRun 2 "push"],
    nameWithOwner := .ok "octo/site",
    artifacts := fun _ id =>
      if id = 2 then .artifacts [sampleApiArtifact 2] else first }

/-- The artifact `site` of sample run `id`, as `getArtifact` returns it. -/
def sampleArtifact (id : Int) : Artifact :=
  { Name := "site", Size := 2048, Expired := false, RunId := id, Run := sampleRun id "push" }

/-- A prompt that always answers with the first option. -/
def askFirst : List String → Except String Nat := fun _ => .ok 0

/-- An environment in which deleting and downloading both succeed and the
download creates its directory. -/
def sampleEnv (noCache : Bool) : Env :=
  { noCache := noCache,
    removeAll := fun _ => none,
    runDownload := fun _ _ _ => { err := none, createsDir := true } }

/-- A world with nothing done yet where every path has the given `os.Stat` result. -/
def sampleWorld (r : StatResult) : World :=
  { stat := fun _ => r, trace := [] }

/-- A root directory holding just the files `a.html` and `b.html`. -/
def twoPages : Tree := .dir "site" [.file "a.html", .file "b.html"]

/-- A root directory named `report.html` holding just the file `data.json`. -/
def reportDir : Tree := .dir "report.html" [.file "data.json"]

/-- A root directory named `site.html` holding just the file `bar.custom.htm`. -/
def siteHtmlDir : Tree := .dir "site.html" [.file "bar.custom.htm"]

/-! ## Properties of the run filter -/

theorem runFilter_true_eq (sha : String) (runs : List Run) :
    runFilter sha true runs =
      if (runs.filter (fun r => r.HeadSha == sha)).any isPullRequestEvent
      then (runs.filter (fun r => r.HeadSha == sha)).filter isPullRequestEvent
      else runs.filter (fun r => r.HeadSha == sha) := rfl

theorem runFilter_false_eq (sha : String) (runs : List Run) :
    runFilter sha false runs =
      (runs.filter (fun r => r.HeadSha == sha)).filter (fun r => r.Event != "pull_request") := rfl

theorem any_filter_and (q p : Run → Bool) (runs : List Run) :
    (runs.filter q).any p = runs.any (fun r => q r && p r) := by
  induction runs with
  | nil => rfl
  | cons a l ih =>
    cases h : q a <;> simp [List.filter_cons, h, ih]

theorem any_filter_sha (sha : String) (runs : List Run) :
    (runs.filter (fun r => r.HeadSha == sha)).any isPullRequestEvent
      = runs.any (fun r => r.HeadSha == sha && r.Event == "pull_request") :=
  any_filter_and _ _ runs

theorem filter_filter_sha (sha : String) (p : Run → Bool) (runs : List Run) :
    (runs.filter (fun r => r.HeadSha == sha)).filter p
      = runs.filter (fun r => r.HeadSha == sha && p r) := by
  induction runs with
  | nil => rfl
  | cons a l ih =>
    cases h : (a.HeadSha == sha) <;> cases hp : p a <;>
      simp [List.filter_cons, h, hp, ih]

theorem isEmpty_filter_eq_not_any (p : Run → Bool) (runs : List Run) :
    (runs.filter p).isEmpty = !runs.any p := by
  induction runs with
  | nil => rfl
  | cons a l ih =>
    cases h : p a <;> simp [List.filter_cons, h, ih]

/-- C1: with `isPr` true the run filter returns, in the original order, the runs
whose `headSha` is the sha and whose event is `pull_request` when there is such a
run, and otherwise all runs whose `headSha` is the sha; its result is empty only
when no run has that sha. -/
theorem runFilter_pr_prefers_pull_request (sha : String) (runs : List Run) :
    (runFilter sha true runs =
      if runs.any (fun r => r.HeadSha == sha && r.Event == "pull_request")
      then runs.filter (fun r => r.HeadSha == sha && r.Event == "pull_request")
      else runs.filter (fun r => r.HeadSha == sha))
    ∧ ((runFilter sha true runs).isEmpty = !runs.any (fun r => r.HeadSha == sha)) := by
  have hmain : runFilter sha true runs =
      if runs.any (fun r => r.HeadSha == sha && r.Event == "pull_request")
      then runs.filter (fun r => r.HeadSha == sha && r.Event == "pull_request")
      else runs.filter (fun r => r.HeadSha == sha) := by
    rw [runFilter_true_eq, any_filter_sha, filter_filter_sha]
    rfl
  refine ⟨hmain, ?_⟩
  rw [hmain]
  by_cases hp : runs.any (fun r => r.HeadSha == sha && r.Event == "pull_request") = true
  · rw [if_pos hp, isEmpty_filter_eq_not_any, hp]
    obtain ⟨r, hr, hrp⟩ := List.any_eq_true.mp hp
    have hsha : runs.any (fun r => r.HeadSha == sha) = true :=
      List.any_eq_true.mpr ⟨r, hr, ((Bool.and_eq_true _ _).mp hrp).1⟩
    rw [hsha]
  · rw [if_neg hp, isEmpty_filter_eq_not_any]

/-- C2: with `isPr` false the run filter returns, in the original order, the runs
whose `headSha` is the sha and whose event is not `pull_request`; every run of
the result has that sha and an event other than `pull_request`. -/
theorem runFilter_nonPr_excludes_pull_request (sha : String) (runs : List Run) :
    (runFilter sha false runs =
      runs.filter (fun r => r.HeadSha == sha && r.Event != "pull_request"))
    ∧ (runFilter sha false runs).all
        (fun r => r.HeadSha == sha && r.Event != "pull_request") = true := by
  have h : runFilter sha false runs =
      runs.filter (fun r => r.HeadSha == sha && r.Event != "pull_request") := by
    rw [runFilter_false_eq, filter_filter_sha]
  refine ⟨h, ?_⟩
  rw [h, List.all_eq_true]
  intro r hr
  exact (List.mem_filter.mp hr).2

theorem filter_eq_self_of_all (p : Run → Bool) (l : List Run) (h : l.all p = true) :
    l.filter p = l := by
  rw [List.filter_eq_self]
  exact fun a ha => List.all_eq_true.mp h a ha

theorem all_filter_self (p : Run → Bool) (l : List Run) : (l.filter p).all p = true := by
  rw [List.all_eq_true]
  exact fun a ha => (List.mem_filter.mp ha).2

/-- C10: applying the run filter to its own output, with the same sha and flag,
returns that output unchanged. -/
theorem runFilter_idempotent (sha : String) (isPr : Bool) (runs : List Run) :
    runFilter sha isPr (runFilter sha isPr runs) = runFilter sha isPr runs := by
  cases isPr with
  | false =>
    have h : runFilter sha false runs =
        runs.filter (fun r => r.HeadSha == sha && r.Event != "pull_request") := by
      rw [runFilter_false_eq, filter_filter_sha]
    rw [h]
    have h2 := runFilter_false_eq sha
      (runs.filter (fun r => r.HeadSha == sha && r.Event != "pull_request"))
    rw [h2, filter_filter_sha]
    exact filter_eq_self_of_all _ _ (all_filter_self _ _)
  | true =>
    have hout : runFilter sha true runs =
        if runs.any (fun r => r.HeadSha == sha && r.Event == "pull_request")
        then runs.filter (fun r => r.HeadSha == sha && r.Event == "pull_request")
        else runs.filter (fun r => r.HeadSha == sha) := by
      rw [runFilter_true_eq, any_filter_sha, filter_filter_sha]
      rfl
    by_cases hp : runs.any (fun r => r.HeadSha == sha && r.Event == "pull_request") = true
    · rw [hout, if_pos hp]
      rw [runFilter_true_eq, any_filter_sha, filter_filter_sha]
      have hfix : (runs.filter (fun r => r.HeadSha == sha && r.Event == "pull_request")).filter
          (fun r => r.HeadSha == sha && isPullRequestEvent r)
          = runs.filter (fun r => r.HeadSha == sha && r.Event == "pull_request") :=
        filter_eq_self_of_all _ _ (all_filter_self _ _)
      have hany : (runs.filter (fun r => r.HeadSha == sha && r.Event == "pull_request")).any
          (fun r => r.HeadSha == sha && r.Event == "pull_request") = true := by
        obtain ⟨r, hr, hrp⟩ := List.any_eq_true.mp hp
        exact List.any_eq_true.mpr ⟨r, List.mem_filter.mpr ⟨hr, hrp⟩, hrp⟩
      rw [hany, if_pos rfl, hfix]
    · rw [hout, if_neg hp]
      rw [runFilter_true_eq, any_filter_sha, filter_filter_sha]
      have hsha : (runs.filter (fun r => r.HeadSha == sha)).filter (fun r => r.HeadSha == sha)
          = runs.filter (fun r => r.HeadSha == sha) :=
        filter_eq_self_of_all _ _ (all_filter_self _ _)
      have hany : (runs.filter (fun r => r.HeadSha == sha)).any
          (fun r => r.HeadSha == sha && r.Event == "pull_request") = false := by
        cases hq : (runs.filter (fun r => r.HeadSha == sha)).any
            (fun r => r.HeadSha == sha && r.Event == "pull_request")
        · rfl
        · obtain ⟨r, hr, hrp⟩ := List.any_eq_true.mp hq
          exact absurd (List.any_eq_true.mpr ⟨r, (List.mem_filter.mp hr).1, hrp⟩) hp
      rw [hany, hsha]
      rfl

/-! ## Properties of `getArtifact` -/

theorem aggregateLoop_eq (listing : Int → Listing) (runs : List Run) (acc : List Artifact) :
    aggregateLoop listing runs acc =
      match firstUndecodable listing runs with
      | some msg => .error (.json msg)
      | none => .ok (acc ++ specCandidates listing runs) := by
  induction runs generalizing acc with
  | nil => simp [aggregateLoop, firstUndecodable, specCandidates]
  | cons r rest ih =>
    cases h : listing r.RunId with
    | failed m =>
      simp only [aggregateLoop, firstUndecodable, h, ih, specCandidates, List.flatMap_cons,
        List.nil_append]
    | blank =>
      simp only [aggregateLoop, firstUndecodable, h, ih, specCandidates, List.flatMap_cons,
        List.nil_append]
    | undecodable m =>
      simp only [aggregateLoop, firstUndecodable, h]
    | artifacts arts =>
      simp only [aggregateLoop, firstUndecodable, h, ih, specCandidates, List.flatMap_cons,
        List.append_assoc]

theorem decodeArtifacts_live (arts : List ApiArtifact) :
    ∀ a ∈ decodeArtifacts arts, a.Expired = false := by
  intro a ha
  have := (List.mem_filter.mp ha).2
  simpa using this

theorem specCandidates_live (listing : Int → Listing) (runs : List Run) :
    ∀ a ∈ specCandidates listing runs, a.Expired = false := by
  intro a ha
  simp only [specCandidates, List.mem_flatMap] at ha
  obtain ⟨r, _, hr⟩ := ha
  cases h : listing r.RunId with
  | artifacts arts =>
    rw [h] at hr
    simp only [attachRun, List.mem_map] at hr
    obtain ⟨b, hb, rfl⟩ := hr
    exact decodeArtifacts_live arts b hb
  | failed m => rw [h] at hr; cases hr
  | blank => rw [h] at hr; cases hr
  | undecodable m => rw [h] at hr; cases hr

theorem candidates_live (P : Provider) (branch sha : String) (isPr : Bool)
    (l : List Artifact) (h : candidates P branch sha isPr = .ok l) :
    ∀ a ∈ l, a.Expired = false := by
  unfold candidates at h
  cases hr : P.runList branch with
  | failed m => rw [hr] at h; cases h
  | undecodable m => rw [hr] at h; cases h
  | runs all =>
    rw [hr] at h
    cases hn : P.nameWithOwner with
    | error m => rw [hn] at h; cases h
    | ok nwo =>
      rw [hn] at h
      simp only [aggregateLoop_eq] at h
      cases hf : firstUndecodable (P.artifacts nwo) (runFilter sha isPr all) with
      | some m => rw [hf] at h; cases h
      | none =>
        rw [hf] at h
        simp only [List.nil_append, Except.ok.injEq] at h
        rw [← h]
        exact specCandidates_live _ _

theorem candidates_error_ne_notFound (P : Provider) (branch sha : String) (isPr : Bool)
    (e : Err) (h : candidates P branch sha isPr = .error e) (b s : String) :
    e ≠ .notFound b s := by
  unfold candidates at h
  cases hr : P.runList branch with
  | failed m => rw [hr] at h; cases h; simp
  | undecodable m => rw [hr] at h; cases h; simp
  | runs all =>
    rw [hr] at h
    cases hn : P.nameWithOwner with
    | error m => rw [hn] at h; cases h; simp
    | ok nwo =>
      rw [hn] at h
      simp only [aggregateLoop_eq] at h
      cases hf : firstUndecodable (P.artifacts nwo) (runFilter sha isPr all) with
      | some m => rw [hf] at h; cases h; simp
      | none => rw [hf] at h; cases h

theorem selectArtifact_single (ask : List String → Except String Nat) (branch sha : String)
    (a : Artifact) :
    selectArtifact ask branch sha [a] = { result := .ok a, prompts := [] } :=
  rfl

theorem selectArtifact_result_notFound (ask : List String → Except String Nat)
    (branch sha : String) (l : List Artifact) (b s : String)
    (h : (selectArtifact ask branch sha l).result = .error (.notFound b s)) : l = [] := by
  match l with
  | [] => rfl
  | [a] => rw [selectArtifact_single] at h; cases h
  | a :: b2 :: rest =>
    exfalso
    simp only [selectArtifact, List.length_cons] at h
    rw [if_neg (by omega), if_neg (by omega)] at h
    split at h
    · simp at h
    · split at h <;> simp at h

/-- C3: the candidate list that line 169 sees is empty exactly when `getArtifact`
returns the not-found error for the branch and sha passed in; then no prompt
was invoked, and the message of that error has the branch and the sha in it. -/
theorem getArtifact_notFound_iff_no_candidates (P : Provider)
    (ask : List String → Except String Nat) (branch sha : String) (isPr : Bool) :
    (candidates P branch sha isPr = .ok [] ↔
      (getArtifact P ask branch sha isPr).result = .error (.notFound branch sha))
    ∧ ((getArtifact P ask branch sha isPr).result = .error (.notFound branch sha) →
        (getArtifact P ask branch sha isPr).prompts = [])
    ∧ (Err.notFound branch sha).message
        = "No artifacts found for branch " ++ branch ++ " and sha " ++ sha := by
  have hback : (getArtifact P ask branch sha isPr).result = .error (.notFound branch sha) →
      candidates P branch sha isPr = .ok [] := by
    intro h
    unfold getArtifact at h
    cases hc : candidates P branch sha isPr with
    | error e =>
      rw [hc] at h
      simp only [Except.error.injEq] at h
      exact absurd h (candidates_error_ne_notFound P branch sha isPr e hc branch sha)
    | ok l =>
      rw [hc] at h
      rw [selectArtifact_result_notFound ask branch sha l branch sha h]
  have hfwd : candidates P branch sha isPr = .ok [] →
      getArtifact P ask branch sha isPr
        = { result := .error (.notFound branch sha), prompts := [] } := by
    intro h
    unfold getArtifact
    rw [h]
    rfl
  exact ⟨⟨fun h => congrArg Outcome.result (hfwd h), hback⟩,
    fun h => congrArg Outcome.prompts (hfwd (hback h)), rfl⟩

/-- The property C3 on a provider whose runs are on another commit: no candidate, the
not-found error, no prompt. -/
theorem getArtifact_notFound_iff_no_candidates_witness :
    candidates (sampleProvider .blank) "main" "000000" false = .ok []
    ∧ (getArtifact (sampleProvider .blank) askFirst "main" "000000" false).result
        = .error (.notFound "main" "000000")
    ∧ (getArtifact (sampleProvider .blank) askFirst "main" "000000" false).prompts = [] :=
  ⟨rfl,
    (getArtifact_notFound_iff_no_candidates (sampleProvider .blank) askFirst "main" "000000"
      false).1.mp rfl,
    (getArtifact_notFound_iff_no_candidates (sampleProvider .blank) askFirst "main" "000000"
      false).2.1 rfl⟩

/-- C4: when the candidate list has exactly one artifact, `getArtifact` returns
that artifact, which is not expired, with no error and no prompt, whatever the
prompt would have answered. -/
theorem getArtifact_single_candidate (P : Provider) (branch sha : String) (isPr : Bool)
    (a : Artifact) (h : candidates P branch sha isPr = .ok [a]) :
    (∀ ask : List String → Except String Nat,
      getArtifact P ask branch sha isPr = { result := .ok a, prompts := [] })
    ∧ a.Expired = false := by
  refine ⟨fun ask => ?_, candidates_live P branch sha isPr [a] h a (List.mem_singleton.mpr rfl)⟩
  unfold getArtifact
  rw [h]
  rfl

/-- The property C4 on a provider with one live artifact among two runs. -/
theorem getArtifact_single_candidate_witness :
    candidates (sampleProvider .blank) "main" "abc123" false = .ok [sampleArtifact 1]
    ∧ ((∀ ask : List String → Except String Nat,
        getArtifact (sampleProvider .blank) ask "main" "abc123" false
          = { result := .ok (sampleArtifact 1), prompts := [] })
      ∧ (sampleArtifact 1).Expired = false) :=
  ⟨rfl, getArtifact_single_candidate (sampleProvider .blank) "main" "abc123" false
    (sampleArtifact 1) rfl⟩

/-- C5, as amended: the aggregation loop returns the decode error of the first
listing, in run order, whose non-blank output does not decode; when there is no
such listing it returns the concatenation, in run order, of the non-expired
artifacts of each run whose listing succeeds, each tagged with its run, and a
run whose call fails or whose output is blank contributes nothing. -/
theorem aggregateLoop_characterised (listing : Int → Listing) (runs : List Run) :
    aggregateLoop listing runs [] =
      match firstUndecodable listing runs with
      | some msg => .error (.json msg)
      | none => .ok (specCandidates listing runs) := by
  rw [aggregateLoop_eq]
  rfl

/-- C5 fails as stated: with a first run whose listing is non-blank output that
does not decode and a second run with one live artifact, the loop returns the
decode error, not the second run's artifact, and so does `getArtifact`. -/
theorem aggregateLoop_undecodable_aborts :
    aggregateLoop ((sampleProviderSwapped (.undecodable "unexpected end of JSON input")).artifacts
        "octo/site") [sampleRun 1 "push", sampleRun 2 "push"] []
      = .error (.json "unexpected end of JSON input")
    ∧ specCandidates ((sampleProviderSwapped (.undecodable "unexpected end of JSON input")).artifacts
        "octo/site") [sampleRun 1 "push", sampleRun 2 "push"] = [sampleArtifact 2]
    ∧ (getArtifact (sampleProviderSwapped (.undecodable "unexpected end of JSON input")) askFirst
        "main" "abc123" false).result = .error (.json "unexpected end of JSON input") := by
  exact ⟨rfl, rfl, rfl⟩

/-! ## Properties of `download` -/

theorem providerDownload_fst (env : Env) (artifact : Artifact) (dir : String) (w : World) :
    (providerDownload env artifact dir w).1
      = (env.runDownload (itoa artifact.RunId) artifact.Name dir).err := rfl

theorem providerDownload_trace (env : Env) (artifact : Artifact) (dir : String) (w : World) :
    (providerDownload env artifact dir w).2.trace
      = w.trace ++ [.runDownload (itoa artifact.RunId) artifact.Name dir] := rfl

theorem providerDownload_stat (env : Env) (artifact : Artifact) (dir : String) (w : World)
    (h : (env.runDownload (itoa artifact.RunId) artifact.Name dir).createsDir = true) :
    (providerDownload env artifact dir w).2.stat dir = .found := by
  simp [providerDownload, h, setStat]

theorem download_of_notExist (env : Env) (artifact : Artifact) (dir : String) (w : World)
    (h : w.stat dir = .notExist) :
    download env artifact dir w = providerDownload env artifact dir w := by
  simp only [download, h]

theorem download_of_exists (env : Env) (artifact : Artifact) (dir : String) (w : World)
    (h : w.stat dir ≠ .notExist) :
    download env artifact dir w =
      if env.noCache then
        match env.removeAll dir with
        | some err => (some err, { w with trace := w.trace ++ [.removeAll dir] })
        | none => providerDownload env artifact dir
            { stat := setStat w.stat dir .notExist, trace := w.trace ++ [.removeAll dir] }
      else (none, w) := by
  unfold download
  cases hs : w.stat dir with
  | notExist => exact absurd hs h
  | found => rfl
  | otherError => rfl

/-- C6: with `noCache` unset, a directory that is absent, and a provider download
that succeeds and creates the directory, the first `download` performs that
download and returns no error, and a second `download` right after returns no
error and leaves the world as it is: over both calls the trace grows by one
provider download and no delete. -/
theorem download_twice_downloads_once (env : Env) (artifact : Artifact) (dir : String)
    (w : World) (hcache : env.noCache = false) (habsent : w.stat dir = .notExist)
    (hok : (env.runDownload (itoa artifact.RunId) artifact.Name dir).err = none)
    (hdir : (env.runDownload (itoa artifact.RunId) artifact.Name dir).createsDir = true) :
    (download env artifact dir w).1 = none
    ∧ (download env artifact dir w).2.stat dir = .found
    ∧ download env artifact dir (download env artifact dir w).2
        = (none, (download env artifact dir w).2)
    ∧ (download env artifact dir (download env artifact dir w).2).2.trace
        = w.trace ++ [.runDownload (itoa artifact.RunId) artifact.Name dir]
    ∧ countDownloads (download env artifact dir (download env artifact dir w).2).2.trace
        = countDownloads w.trace + 1
    ∧ countRemoves (download env artifact dir (download env artifact dir w).2).2.trace
        = countRemoves w.trace := by
  have h1 := download_of_notExist env artifact dir w habsent
  have hfound : (download env artifact dir w).2.stat dir = .found := by
    rw [h1]
    exact providerDownload_stat env artifact dir w hdir
  have h2 : download env artifact dir (download env artifact dir w).2
      = (none, (download env artifact dir w).2) := by
    rw [download_of_exists env artifact dir _ (by rw [hfound]; decide), hcache]
    rfl
  have htrace : (download env artifact dir (download env artifact dir w).2).2.trace
      = w.trace ++ [.runDownload (itoa artifact.RunId) artifact.Name dir] := by
    rw [h2, h1]
    rfl
  refine ⟨?_, hfound, h2, htrace, ?_, ?_⟩
  · rw [h1, providerDownload_fst, hok]
  · rw [htrace]
    simp [countDownloads, List.countP_append]
  · rw [htrace]
    simp [countRemoves, List.countP_append]

/-- The property C6 on an absent directory with a download that succeeds. -/
theorem download_twice_downloads_once_witness :
    (sampleEnv false).noCache = false
    ∧ (sampleWorld .notExist).stat "cache/7/site" = .notExist
    ∧ (download (sampleEnv false) (sampleArtifact 7) "cache/7/site"
        (download (sampleEnv false) (sampleArtifact 7) "cache/7/site"
          (sampleWorld .notExist)).2).2.trace
        = [.runDownload "7" "site" "cache/7/site"] :=
  ⟨rfl, rfl,
    (download_twice_downloads_once (sampleEnv false) (sampleArtifact 7) "cache/7/site"
      (sampleWorld .notExist) rfl rfl rfl rfl).2.2.2.1⟩

/-- C7, as amended: with `noCache` set, `download` on an absent directory performs
no delete and exactly one provider download; on a directory that is not absent
it performs exactly one recursive delete and then, when the delete succeeds,
exactly one provider download, and when the delete fails it returns that error
without downloading. -/
theorem download_noCache_behaviour (env : Env) (artifact : Artifact) (dir : String)
    (w : World) (hno : env.noCache = true) :
    (w.stat dir = .notExist →
      (download env artifact dir w).2.trace
        = w.trace ++ [.runDownload (itoa artifact.RunId) artifact.Name dir]
      ∧ (download env artifact dir w).1
        = (env.runDownload (itoa artifact.RunId) artifact.Name dir).err)
    ∧ (w.stat dir ≠ .notExist → env.removeAll dir = none →
      (download env artifact dir w).2.trace
        = w.trace ++ [.removeAll dir, .runDownload (itoa artifact.RunId) artifact.Name dir]
      ∧ (download env artifact dir w).1
        = (env.runDownload (itoa artifact.RunId) artifact.Name dir).err)
    ∧ (w.stat dir ≠ .notExist → ∀ e, env.removeAll dir = some e →
      (download env artifact dir w).2.trace = w.trace ++ [.removeAll dir]
      ∧ (download env artifact dir w).1 = some e) := by
  refine ⟨fun h => ?_, fun h hr => ?_, fun h e hr => ?_⟩
  · rw [download_of_notExist env artifact dir w h]
    exact ⟨rfl, rfl⟩
  · rw [download_of_exists env artifact dir w h, hno, if_pos rfl, hr]
    refine ⟨?_, rfl⟩
    rw [providerDownload_trace]
    simp
  · rw [download_of_exists env artifact dir w h, hno, if_pos rfl, hr]
    exact ⟨rfl, rfl⟩

/-- The amended C7 on a directory that is present: one delete, then one download. -/
theorem download_noCache_behaviour_witness :
    (sampleEnv true).noCache = true
    ∧ (download (sampleEnv true) (sampleArtifact 7) "cache/7/site" (sampleWorld .found)).2.trace
        = [.removeAll "cache/7/site", .runDownload "7" "site" "cache/7/site"] :=
  ⟨rfl,
    ((download_noCache_behaviour (sampleEnv true) (sampleArtifact 7) "cache/7/site"
      (sampleWorld .found) rfl).2.1 (by decide) rfl).1⟩

/-- C7 fails as stated: with `noCache` set and the directory absent, `download`
performs the provider download and no recursive delete at all. -/
theorem download_noCache_absent_no_delete :
    (download (sampleEnv true) (sampleArtifact 7) "cache/7/site" (sampleWorld .notExist)).2.trace
        = [.runDownload "7" "site" "cache/7/site"]
    ∧ countRemoves
        (download (sampleEnv true) (sampleArtifact 7) "cache/7/site"
          (sampleWorld .notExist)).2.trace = 0 :=
  ⟨rfl, rfl⟩

/-! ## Properties of `findFile` and `getIndexFile` -/

theorem lastMatch_cons (f : String) (e : List String × String) (es : List (List String × String))
    (init : Option (List String)) :
    lastMatch f (e :: es) init
      = lastMatch f es (if hasSuffix e.2 f then some e.1 else init) := rfl

theorem lastMatch_append (f : String) (es fs : List (List String × String))
    (init : Option (List String)) :
    lastMatch f (es ++ fs) init = lastMatch f fs (lastMatch f es init) := by
  simp [lastMatch, List.foldl_append]

mutual
theorem walk_findFileFn (f : String) :
    ∀ (t : Tree) (path : List String) (st : Option (List String)),
      walk (findFileFn f) path t st =
        match firstBroken t with
        | some e => .error e
        | none => .ok (lastMatch f (entries path t) st)
  | .file name, path, st => by
    simp only [walk, findFileFn, firstBroken, entries, lastMatch, List.foldl_cons, List.foldl_nil]
    split <;> rfl
  | .broken name err, path, st => by
    simp only [walk, findFileFn, firstBroken]
  | .dir name children, path, st => by
    have ih := walkChildren_findFileFn f children path
    simp only [walk, firstBroken, entries, lastMatch_cons]
    by_cases h : hasSuffix name f = true
    · simp only [findFileFn, h, if_true, ih]
    · simp only [findFileFn, h, if_false, ih]
      rfl
theorem walkChildren_findFileFn (f : String) :
    ∀ (cs : List Tree) (path : List String) (st : Option (List String)),
      walkChildren (findFileFn f) path cs st =
        match firstBrokenChildren cs with
        | some e => .error e
        | none => .ok (lastMatch f (entriesChildren path cs) st)
  | [], path, st => by
    simp only [walkChildren, firstBrokenChildren, entriesChildren, lastMatch, List.foldl_nil]
  | c :: cs, path, st => by
    have ih1 := walk_findFileFn f c (path ++ [c.name]) st
    have ih2 := walkChildren_findFileFn f cs path
    simp only [walkChildren, firstBrokenChildren, entriesChildren, lastMatch_append, ih1]
    cases hb : firstBroken c with
    | some e => rfl
    | none => simp only [ih2]
end

theorem findFile_eq (t : Tree) (f : String) :
    findFile t f =
      match firstBroken t with
      | some e => .error e
      | none => .ok (lastMatch f (entries [] t) none) :=
  walk_findFileFn f t [] none

/-- C8 fails on the code: the walk function tests the name of every entry, with
no test that the entry is a file, so the root directory itself can match. Under
a root directory named `report.html` whose only file is `data.json`, no file's
name ends in any of the suffixes, yet the result is `.` and not the empty
string; under a root named `site.html` whose only file is `bar.custom.htm` the
result is `.` and not `bar.custom.htm`. -/
theorem getIndexFile_matches_root_directory :
    ((filesOf [] reportDir).all (fun e => indexNames.all (fun s => !hasSuffix e.2 s)) = true
      ∧ getIndexFile reportDir = .ok "."
      ∧ getIndexFile reportDir ≠ .ok "")
    ∧ (filesOf [] siteHtmlDir = [(["bar.custom.htm"], "bar.custom.htm")]
      ∧ getIndexFile siteHtmlDir = .ok "."
      ∧ getIndexFile siteHtmlDir ≠ .ok "bar.custom.htm") := by
  refine ⟨⟨by decide, rfl, ?_⟩, rfl, rfl, ?_⟩
  · have h : getIndexFile reportDir = .ok "." := rfl
    rw [h]
    simp
  · have h : getIndexFile siteHtmlDir = .ok "." := rfl
    rw [h]
    simp

/-- C9 fails on the code: with `a.html` before `b.html` in one directory, the
first entry of the walk whose name ends in `.html` is `a.html`, but `findFile`
returns `b.html`, the last one, and so does `getIndexFile`. -/
theorem findFile_returns_last_match :
    ((entries [] twoPages).find? (fun e => hasSuffix e.2 ".html")).map (fun e => e.1)
        = some ["a.html"]
    ∧ findFile twoPages ".html" = .ok (some ["b.html"])
    ∧ getIndexFile twoPages = .ok "b.html" := by
  exact ⟨by decide, rfl, rfl⟩

end GhServe
